import Mathlib

/-!
# nntp-web: the NNTP posting client of `src/post/main.c`

A shallow embedding of `read_nntp_line`, `send_nntp_command` and `post_to_nntp`
and the properties of the posting protocol that were checked against it.

Conventions of the embedding.

* A C string is the list of its `char`s before the terminating NUL (`Bytes`);
  one `Char` stands for one byte.
* The socket is a pair: the bytes the peer will still deliver (`St.inp`; once
  they are used up `read` returns a value `<= 0`) and the trace of the calls
  made on it so far (`St.trace`).
* The outcome of the k-th `write(2)` call is `Env.write_ok k`: the call either
  transfers its whole buffer or fails. `SIGPIPE` is ignored by `main`, so a failed
  write just returns `-1`.
* `printf`/`fprintf`/`perror` diagnostics are not part of the model.
-/

namespace NntpWeb

/-- The `char`s of a C string, without the terminating NUL. -/
abbrev Bytes := List Char

/-- The constant `#define NNTP_BUFFER_SIZE 1024`. -/
def NNTP_BUFFER_SIZE : Nat := 1024

/-- What a `char` buffer holds when read as a C string: the bytes before the first NUL. -/
def cstr (buf : Bytes) : Bytes := buf.takeWhile (fun c => c != '\x00')

/-- The value of `size - 1` on `size_t` (64 bits, wraps around for `size = 0`). -/
def size_minus_one (size : Nat) : Nat := (size % 2 ^ 64 + (2 ^ 64 - 1)) % 2 ^ 64

/-- The `while (i < size - 1)` loop of `read_nntp_line`. `buf` is `buffer[0..i)`, so
`i = buf.length`; the last argument is what the peer still delivers. The result is
`some line` for `return 0` (with `line` the C string left in `buffer`) or `none` for
`return -1`, together with the bytes not yet consumed. -/
def read_nntp_line_loop (size : Nat) : Bytes → Bytes → Option Bytes × Bytes
  | _, [] => (none, [])   -- read returned n <= 0, or the loop was left with the buffer full
  | buf, c :: rest =>
    if buf.length < size_minus_one size then
      -- read(sock, &buffer[i], 1) stored c
      if c = '\n' ∧ 0 < buf.length ∧ buf.getLast? = some '\r' then
        -- buffer[i-1] = '\0'
        (some (cstr buf.dropLast), rest)
      else read_nntp_line_loop size (buf ++ [c]) rest
    else (none, c :: rest)

/-- The function `int read_nntp_line(int sock, char *buffer, size_t size)`, run on the
incoming stream. -/
def read_nntp_line (size : Nat) (inp : Bytes) : Option Bytes × Bytes :=
  read_nntp_line_loop size [] inp

/-- The C locale's `isspace`. -/
def isspace (c : Char) : Bool :=
  c = ' ' || c = '\t' || c = '\n' || c = '\x0b' || c = '\x0c' || c = '\r'

/-- Value of a run of decimal digits, most significant first. -/
def digits_value (ds : Bytes) : Nat :=
  ds.foldl (fun acc d => 10 * acc + (d.toNat - '0'.toNat)) 0

/-- Conversion of a 64-bit `long` to `int` (32 bits, two's complement). -/
def long_to_int (v : Int) : Int :=
  let w := v % 2 ^ 32
  if w < 2 ^ 31 then w else w - 2 ^ 32

/-- The `%d` conversion of `sscanf(buffer, "%d", ...)`: white space is skipped, an
optional sign is taken, then the longest run of decimal digits; `none` when there
is no digit there (matching failure, nothing is stored). A value outside `long` is
clamped and the result is stored through an `int *`, as glibc does (the C standard
leaves the conversion of an unrepresentable value undefined). -/
def sscanf_d (buffer : Bytes) : Option Int :=
  let s := buffer.dropWhile isspace
  let neg := s.head? = some '-'
  let s := if s.head? = some '-' ∨ s.head? = some '+' then s.tail else s
  let ds := s.takeWhile Char.isDigit
  if ds = [] then none
  else
    let v : Int := if neg then - (digits_value ds : Int) else (digits_value ds : Int)
    let v := max (-(2 ^ 63)) (min v (2 ^ 63 - 1))
    some (long_to_int v)

/-- The statement `sscanf(buffer, "%d", &status_code);`: the new value of
`status_code`, which keeps its old value when nothing is converted. -/
def sscanf_status (buffer : Bytes) (status_code : Int) : Int :=
  match sscanf_d buffer with
  | some v => v
  | none => status_code

/-- A call `snprintf(buf, size, ...)` followed by reading `buf` as a C string: the formatted
text cut to `size - 1` bytes. -/
def snprintf (size : Nat) (formatted : Bytes) : Bytes := formatted.take (size - 1)

/-- The `%d` / `%ld` output conversion. -/
def fmt_d (v : Int) : Bytes :=
  if v < 0 then '-' :: Nat.toDigits 10 v.natAbs else Nat.toDigits 10 v.natAbs

/-- The post data, `struct nntp_post_data`. -/
structure nntp_post_data where
  «from» : Bytes
  newsgroups : Bytes
  subject : Bytes
  body : Bytes

/-- Everything `post_to_nntp` obtains from outside its arguments. -/
structure Env where
  /-- return value of `socket(AF_INET, SOCK_STREAM, 0)` -/
  socket_ret : Int
  /-- whether `gethostbyname(config->host)` returned a host (not `NULL`) -/
  host_ok : Bool
  /-- whether `connect(...)` returned a value `>= 0` -/
  connect_ok : Bool
  /-- the bytes the server delivers before `read` returns a value `<= 0` -/
  inp : Bytes
  /-- whether the k-th `write` call on the socket (counted from 0) succeeds -/
  write_ok : Nat → Bool
  /-- the indeterminate value of `int status_code;`, declared without initialiser -/
  status0 : Int
  /-- the value of `time(NULL)` -/
  time : Int
  /-- the value of `rand()` -/
  rand : Int
  /-- the C string `gethostname` left in `hostname` -/
  hostname : Bytes

/-- A call made on the socket. -/
inductive Event where
  /-- the call `socket(...)` returned a descriptor -/
  | socket
  /-- a call `send_nntp_command(sock, command)`; `ok` is whether its `write` succeeded -/
  | send (command : Bytes) (ok : Bool)
  /-- a direct `write(sock, buf, len)` -/
  | write (buf : Bytes) (ok : Bool)
  /-- a call `read_nntp_line(sock, buffer, sizeof(buffer))` and what it left in `buffer` -/
  | read_line (line : Option Bytes)
  /-- the call `close(sock)` -/
  | close
  deriving DecidableEq

/-- The socket: what the peer still delivers, and the calls made so far. -/
structure St where
  inp : Bytes
  trace : List Event

/-- The bytes an event hands to `write(2)`, if it is a write. -/
def Event.payload : Event → Option Bytes
  | .send command _ => some command
  | .write buf _ => some buf
  | _ => none

/-- Whether the event is a write that succeeded. -/
def Event.wrote : Event → Bool
  | .send _ ok => ok
  | .write _ ok => ok
  | _ => false

/-- Whether the event is `close(sock)`. -/
def Event.is_close : Event → Bool
  | .close => true
  | _ => false

/-- Whether the event is the command `send_nntp_command(sock, "QUIT\r\n")`. Article
data written with `write` is not a command. -/
def Event.is_quit : Event → Bool
  | .send command _ => decide (command = "QUIT\r\n".toList)
  | _ => false

/-- The buffers handed to `write(2)`, in order. -/
def writes (trace : List Event) : List Bytes := trace.filterMap Event.payload

/-- The byte sequence written to the socket: what the peer receives when every
write completes. -/
def written (trace : List Event) : Bytes := (writes trace).flatten

/-- The function `int send_nntp_command(int sock, const char *command)`: one `write` of
`strlen(command)` bytes, whose return value is returned. -/
def send_nntp_command (env : Env) (st : St) (command : Bytes) : Int × St :=
  let ok := env.write_ok (writes st.trace).length
  (if ok then (command.length : Int) else -1, { st with trace := st.trace ++ [Event.send command ok] })

/-- A direct `write(sock, buf, len)`. -/
def write (env : Env) (st : St) (buf : Bytes) : Int × St :=
  let ok := env.write_ok (writes st.trace).length
  (if ok then (buf.length : Int) else -1, { st with trace := st.trace ++ [Event.write buf ok] })

/-- A call `read_nntp_line(sock, buffer, sizeof(buffer))` on the socket. -/
def sock_read_line (st : St) : Option Bytes × St :=
  let r := read_nntp_line NNTP_BUFFER_SIZE st.inp
  (r.1, { inp := r.2, trace := st.trace ++ [Event.read_line r.1] })

/-- The call `close(sock)`. -/
def close (st : St) : St := { st with trace := st.trace ++ [Event.close] }

/-- The library function `strchr(s, c)` for `c != 0`: the offset of the first `c` in `s`, `none` for `NULL`. -/
def strchr : Bytes → Char → Option Nat
  | [], _ => none
  | x :: xs, c => if x = c then some 0 else (strchr xs c).map (· + 1)

/-- A call whose return value `post_to_nntp` discards. -/
inductive Call where
  /-- a statement `send_nntp_command(sock, command);` -/
  | send (command : Bytes)
  /-- a statement `write(sock, buf, len);` -/
  | write (buf : Bytes)
  deriving DecidableEq

/-- The bytes a call hands to `write(2)`. -/
def Call.bytes : Call → Bytes
  | .send command => command
  | .write buf => buf

/-- Make the calls in order, dropping each return value. -/
def perform (env : Env) : St → List Call → St
  | st, [] => st
  | st, Call.send command :: cs => perform env (send_nntp_command env st command).2 cs
  | st, Call.write buf :: cs => perform env (write env st buf).2 cs

/-- The `message_id` buffer: `snprintf(message_id, sizeof(message_id), "<%ld.%d@%s>",
time(NULL), rand(), hostname)` with `char message_id[256]`. -/
def message_id (env : Env) : Bytes :=
  snprintf 256 ("<".toList ++ fmt_d env.time ++ ".".toList ++ fmt_d env.rand ++ "@".toList
    ++ env.hostname ++ ">".toList)

/-- Lines 129-148 of `post_to_nntp`: each header is formatted into `buffer`
(`char buffer[NNTP_BUFFER_SIZE]`) with `snprintf` and sent; `References` only when
`reply_to_msgid` is not `NULL`; then the empty line. -/
def header_calls (env : Env) (post : nntp_post_data) (reply_to_msgid : Option Bytes) :
    List Call :=
  [ Call.send (snprintf NNTP_BUFFER_SIZE ("From: ".toList ++ post.«from» ++ "\r\n".toList)),
    Call.send (snprintf NNTP_BUFFER_SIZE ("Newsgroups: ".toList ++ post.newsgroups ++ "\r\n".toList)),
    Call.send (snprintf NNTP_BUFFER_SIZE ("Subject: ".toList ++ post.subject ++ "\r\n".toList)),
    Call.send (snprintf NNTP_BUFFER_SIZE ("Message-ID: ".toList ++ message_id env ++ "\r\n".toList)),
    Call.send (snprintf NNTP_BUFFER_SIZE "Content-Type: text/plain; charset=UTF-8\r\n".toList),
    Call.send (snprintf NNTP_BUFFER_SIZE "Content-Transfer-Encoding: 8bit\r\n".toList) ]
  ++ (match reply_to_msgid with
      | some id => [Call.send (snprintf NNTP_BUFFER_SIZE ("References: ".toList ++ id ++ "\r\n".toList))]
      | none => [])
  ++ [Call.send "\r\n".toList]

/-- The `while ((line_end = strchr(line_start, '\n')) != NULL)` loop of lines 153-160,
from `line_start` on: the calls it makes and the `line_start` it leaves. One unit of
fuel is one iteration. -/
def body_loop : Nat → Bytes → List Call × Bytes
  | 0, line_start => ([], line_start)
  | fuel + 1, line_start =>
    match strchr line_start '\n' with
    | none => ([], line_start)
    | some k =>
      -- k is line_end - line_start
      let r := body_loop fuel (line_start.drop (k + 1))
      ((if line_start.head? = some '.' then [Call.send ".".toList] else [])
        ++ [Call.write (line_start.take (k + 1)), Call.send "\r".toList] ++ r.1, r.2)

/-- Lines 161-168 of `post_to_nntp`, `if (*line_start) { ... }`: the last line, when it
is not empty. -/
def last_line_calls (line_start : Bytes) : List Call :=
  if line_start ≠ [] then
    (if line_start.head? = some '.' then [Call.send ".".toList] else [])
      ++ [Call.send line_start, Call.send "\r\n".toList]
  else []

/-- Lines 150-168 of `post_to_nntp`: the loop over the lines that end in a newline,
then the last line when it is not empty. Every iteration moves `line_start` past a
newline, so `body.length + 1` iterations are never used up. -/
def body_calls (body : Bytes) : List Call :=
  let r := body_loop (body.length + 1) body
  let line_start := r.2
  r.1 ++ last_line_calls line_start

/-- What `post_to_nntp` returns, and the calls it made on the socket. -/
structure Result where
  ret : Int
  trace : List Event

/-- The `nntp_error:` label. -/
def nntp_error (env : Env) (sock : Int) (st : St) : Result :=
  if 0 ≤ sock then
    let st := (send_nntp_command env st "QUIT\r\n".toList).2
    let st := close st
    ⟨-1, st.trace⟩
  else ⟨-1, st.trace⟩

/-- The function `int post_to_nntp(const struct nntp_config *config, const struct nntp_post_data *post,
const char *reply_to_msgid)`; `reply_to_msgid = none` is `NULL`. -/
def post_to_nntp (env : Env) (post : nntp_post_data) (reply_to_msgid : Option Bytes) : Result :=
  let sock := env.socket_ret
  if sock < 0 then ⟨-1, []⟩
  else
    let st : St := ⟨env.inp, [Event.socket]⟩
    if env.host_ok = false then ⟨-1, (close st).trace⟩
    else if env.connect_ok = false then ⟨-1, (close st).trace⟩
    else
      match sock_read_line st with
      | (none, st) => nntp_error env sock st
      | (some buffer, st) =>
        let status_code := sscanf_status buffer env.status0
        if status_code ≠ 200 ∧ status_code ≠ 201 then nntp_error env sock st
        else
          let st := (send_nntp_command env st "POST\r\n".toList).2
          match sock_read_line st with
          | (none, st) => nntp_error env sock st
          | (some buffer, st) =>
            let status_code := sscanf_status buffer status_code
            if status_code ≠ 340 then nntp_error env sock st
            else
              let st := perform env st (header_calls env post reply_to_msgid)
              let st := perform env st (body_calls post.body)
              let st := (send_nntp_command env st ".\r\n".toList).2
              match sock_read_line st with
              | (none, st) => nntp_error env sock st
              | (some buffer, st) =>
                let status_code := sscanf_status buffer status_code
                if status_code ≠ 240 then nntp_error env sock st
                else
                  let st := (send_nntp_command env st "QUIT\r\n".toList).2
                  let st := (sock_read_line st).2
                  let st := close st
                  ⟨0, st.trace⟩

/-- The value returned by `post_to_nntp`, as a function of the outcomes of
`socket`, `gethostbyname`, `connect` and of the three reply lines. -/
def outcome (env : Env) : Int :=
  if env.socket_ret < 0 ∨ env.host_ok = false ∨ env.connect_ok = false then -1
  else
    match read_nntp_line NNTP_BUFFER_SIZE env.inp with
    | (none, _) => -1
    | (some g, s1) =>
      if sscanf_status g env.status0 ≠ 200 ∧ sscanf_status g env.status0 ≠ 201 then -1
      else
        match read_nntp_line NNTP_BUFFER_SIZE s1 with
        | (none, _) => -1
        | (some a, s2) =>
          if sscanf_status a (sscanf_status g env.status0) ≠ 340 then -1
          else
            match read_nntp_line NNTP_BUFFER_SIZE s2 with
            | (none, _) => -1
            | (some r, _) =>
              if sscanf_status r (sscanf_status a (sscanf_status g env.status0)) ≠ 240 then -1
              else 0

/-- The status code a reply line begins with, in the words of the specification:
the leading run of decimal digits of the line, when that run has exactly three
digits. -/
def leading_code (line : Bytes) : Option Nat :=
  let ds := line.takeWhile Char.isDigit
  if ds.length = 3 then some (digits_value ds) else none

/-- The bytes written for the body by lines 150-168 of `post_to_nntp`. -/
def body_bytes (body : Bytes) : Bytes := ((body_calls body).map Call.bytes).flatten

/-! ## The receiving side, in the words of the specification -/

/-- Lines of a byte sequence delimited by CR LF, reading from the left: `cur` is the
part of the current line seen so far. A line ends at an LF that follows a CR. -/
def split_crlf_from : Bytes → Bytes → List Bytes
  | cur, [] => [cur]
  | cur, c :: rest =>
    if c = '\n' ∧ cur.getLast? = some '\r' then cur.dropLast :: split_crlf_from [] rest
    else split_crlf_from (cur ++ [c]) rest

/-- Split a byte sequence into lines at CR LF. -/
def split_crlf (s : Bytes) : List Bytes := split_crlf_from [] s

/-- Lines of a body separated by the single newline character; `cur` is the part of
the current line seen so far. -/
def split_newline_from : Bytes → Bytes → List Bytes
  | cur, [] => [cur]
  | cur, c :: rest =>
    if c = '\n' then cur :: split_newline_from [] rest
    else split_newline_from (cur ++ [c]) rest

/-- Split a body into lines on the single newline character. -/
def split_newline (body : Bytes) : List Bytes := split_newline_from [] body

/-- De-stuffing of one received line: one leading `.` is removed from a line that
starts with two. -/
def destuff : Bytes → Bytes
  | '.' :: '.' :: rest => '.' :: rest
  | line => line

/-- What keeps the end-of-article marker out of a byte sequence: a newline is never
followed by `.`, and a leading `.` is followed by a second one. -/
def marker_free (r : Bytes) : Prop :=
  ¬ (['\n', '.'] <:+: r) ∧ (r.head? = some '.' → r.tail.head? = some '.')

/-! ## Concrete runs used to exercise the model -/

/-- An environment in which the socket is opened and connected, every write
succeeds and the server delivers `inp`. -/
def server (inp : Bytes) : Env :=
  { socket_ret := 3, host_ok := true, connect_ok := true, inp := inp,
    write_ok := fun _ => true, status0 := 0, time := 1700000000, rand := 42,
    hostname := "host".toList }

/-- The server of end-to-end scenario 1: `200 ok`, `340 go`, `240 posted`. -/
def accepting_server : Env := server "200 ok\r\n340 go\r\n240 posted\r\n205 bye\r\n".toList

/-- The request of end-to-end scenario 1 with the given body. -/
def request (body : Bytes) : nntp_post_data :=
  { «from» := "a@b.com".toList, newsgroups := "test.group".toList, subject := "hi".toList,
    body := body }

/-- A server whose greeting starts with a space. -/
def lenient_greeting_server : Env := server " 200 ok\r\n340 go\r\n240 posted\r\n".toList

/-- The accepting server behind a socket on which every write fails. -/
def broken_pipe_server : Env := { accepting_server with write_ok := fun _ => false }

/-- The request of scenario 1 with a sender of 1016 bytes. -/
def long_from_request : nntp_post_data :=
  { request "line1\nline2".toList with «from» := List.replicate 1016 'a' }

set_option maxRecDepth 100000

/-! ## The control flow of `post_to_nntp` -/

theorem send_nntp_command_inp (env : Env) (st : St) (c : Bytes) :
    (send_nntp_command env st c).2.inp = st.inp := rfl

theorem perform_inp (env : Env) (cs : List Call) : ∀ st : St, (perform env st cs).inp = st.inp := by
  induction cs with
  | nil => intro st; rfl
  | cons c cs ih =>
    intro st
    cases c with
    | send b => simp [perform, ih, send_nntp_command]
    | write b => simp [perform, ih, write]

theorem nntp_error_ret (env : Env) (sock : Int) (st : St) : (nntp_error env sock st).ret = -1 := by
  unfold nntp_error
  split <;> rfl

theorem post_to_nntp_ret (env : Env) (post : nntp_post_data) (reply : Option Bytes) :
    (post_to_nntp env post reply).ret = outcome env := by
  unfold post_to_nntp outcome
  by_cases hs : env.socket_ret < 0
  · simp [hs]
  by_cases hh : env.host_ok = false
  · simp [hs, hh]
  by_cases hc : env.connect_ok = false
  · simp [hs, hh, hc]
  simp only [hs, hh, hc, if_false, or_self, ite_false, sock_read_line, send_nntp_command_inp,
    perform_inp, reduceCtorEq]
  rcases hg : read_nntp_line NNTP_BUFFER_SIZE env.inp with ⟨_ | g, s1⟩
  · simp [nntp_error_ret]
  dsimp only
  by_cases h1 : sscanf_status g env.status0 ≠ 200 ∧ sscanf_status g env.status0 ≠ 201
  · rw [if_pos h1, if_pos h1, nntp_error_ret]
  rw [if_neg h1, if_neg h1]
  rcases ha : read_nntp_line NNTP_BUFFER_SIZE s1 with ⟨_ | a, s2⟩
  · simp [nntp_error_ret]
  dsimp only
  by_cases h2 : sscanf_status a (sscanf_status g env.status0) ≠ 340
  · rw [if_pos h2, if_pos h2, nntp_error_ret]
  rw [if_neg h2, if_neg h2]
  rcases hr : read_nntp_line NNTP_BUFFER_SIZE s2 with ⟨_ | r, s3⟩
  · simp [nntp_error_ret]
  dsimp only
  by_cases h3 : sscanf_status r (sscanf_status a (sscanf_status g env.status0)) ≠ 240
  · rw [if_pos h3, if_pos h3, nntp_error_ret]
  rw [if_neg h3, if_neg h3]


theorem isDigit_bounds {c : Char} (h : c.isDigit = true) : 48 ≤ c.toNat ∧ c.toNat ≤ 57 := by
  simp only [Char.isDigit, Bool.and_eq_true, decide_eq_true_eq] at h
  have h1 : (48 : UInt32) ≤ c.val := h.1
  have h2 : c.val ≤ (57 : UInt32) := h.2
  rw [UInt32.le_def] at h1 h2
  simp only [Char.toNat, UInt32.toNat]
  constructor
  · exact h1
  · exact h2

theorem isspace_of_isDigit {c : Char} (h : c.isDigit = true) : isspace c = false := by
  have hb := isDigit_bounds h
  have hne : ∀ d : Char, (d.toNat < 48) → c ≠ d := by
    intro d hd hcd
    rw [hcd] at hb
    omega
  simp [isspace, hne ' ' (by decide), hne '\t' (by decide), hne '\n' (by decide),
    hne '\x0b' (by decide), hne '\x0c' (by decide), hne '\r' (by decide)]

theorem leading_code_shape {line : Bytes} {c : Nat} (h : leading_code line = some c) :
    ∃ d1 d2 d3 rest, line = d1 :: d2 :: d3 :: rest ∧ d1.isDigit = true ∧ d2.isDigit = true ∧
      d3.isDigit = true ∧ line.takeWhile Char.isDigit = [d1, d2, d3] ∧
      c = digits_value [d1, d2, d3] := by
  unfold leading_code at h
  simp only at h
  split_ifs at h with hl
  simp only [Option.some.injEq] at h
  match line, hl, h with
  | [], hl, _ => simp at hl
  | d1 :: l1, hl, h =>
    by_cases h1 : d1.isDigit = true
    swap
    · simp [List.takeWhile_cons, h1] at hl
    match l1, hl, h with
    | [], hl, _ => simp [List.takeWhile_cons, h1] at hl
    | d2 :: l2, hl, h =>
      by_cases h2 : d2.isDigit = true
      swap
      · simp [List.takeWhile_cons, h1, h2] at hl
      match l2, hl, h with
      | [], hl, _ => simp [List.takeWhile_cons, h1, h2] at hl
      | d3 :: l3, hl, h =>
        by_cases h3 : d3.isDigit = true
        swap
        · simp [List.takeWhile_cons, h1, h2, h3] at hl
        have ht : List.takeWhile Char.isDigit l3 = [] := by
          simp only [List.takeWhile_cons, h1, h2, h3, if_true, List.length_cons] at hl
          exact List.length_eq_zero.mp (by omega)
        have hT : List.takeWhile Char.isDigit (d1 :: d2 :: d3 :: l3) = [d1, d2, d3] := by
          simp [List.takeWhile_cons, h1, h2, h3, ht]
        refine ⟨d1, d2, d3, l3, rfl, h1, h2, h3, hT, ?_⟩
        rw [hT] at h
        exact h.symm

theorem sscanf_d_of_leading_code {line : Bytes} {c : Nat} (h : leading_code line = some c) :
    sscanf_d line = some (c : Int) := by
  obtain ⟨d1, d2, d3, rest, rfl, h1, h2, h3, hT, hc⟩ := leading_code_shape h
  have b1 := isDigit_bounds h1
  have b2 := isDigit_bounds h2
  have b3 := isDigit_bounds h3
  have hm : d1 ≠ '-' := by
    intro e; rw [e] at b1; revert b1; decide
  have hp : d1 ≠ '+' := by
    intro e; rw [e] at b1; revert b1; decide
  have hv : digits_value [d1, d2, d3] ≤ 999 := by
    simp only [digits_value, List.foldl]
    have : ('0' : Char).toNat = 48 := by decide
    omega
  unfold sscanf_d
  simp only [List.dropWhile_cons, isspace_of_isDigit h1, List.head?_cons, Option.some.injEq, hm, hp,
    or_self, if_false, hT, Bool.false_eq_true]
  simp only [reduceCtorEq, if_false, decide_False, Bool.false_eq_true]
  rw [← hc] at hv ⊢
  have e1 : min (c : Int) (2 ^ 63 - 1) = c := by omega
  have e2 : max (-(2 ^ 63) : Int) c = c := by omega
  rw [e1, e2]
  unfold long_to_int
  simp only
  have e3 : (c : Int) % 2 ^ 32 = c := by omega
  rw [e3, if_pos (by omega)]

theorem sscanf_status_of_leading_code {line : Bytes} {c : Nat} (h : leading_code line = some c)
    (old : Int) : sscanf_status line old = (c : Int) := by
  simp [sscanf_status, sscanf_d_of_leading_code h]

/-! ## Reply codes and the result of `post_to_nntp` -/

/-- C1: when the socket is connected and the greeting, the POST acknowledgement and
the article result are each read by `read_nntp_line` and each begin with a run of
exactly three digits, `post_to_nntp` returns 0 if and only if the greeting code is
200 or 201, the acknowledgement code is 340 and the result code is 240; for every
other combination of codes it returns -1. -/
theorem post_to_nntp_result_by_codes (env : Env) (post : nntp_post_data) (reply : Option Bytes)
    (g a r s1 s2 s3 : Bytes) (cg ca cr : Nat)
    (hs : 0 ≤ env.socket_ret) (hh : env.host_ok = true) (hc : env.connect_ok = true)
    (hg : read_nntp_line NNTP_BUFFER_SIZE env.inp = (some g, s1))
    (ha : read_nntp_line NNTP_BUFFER_SIZE s1 = (some a, s2))
    (hr : read_nntp_line NNTP_BUFFER_SIZE s2 = (some r, s3))
    (hcg : leading_code g = some cg) (hca : leading_code a = some ca)
    (hcr : leading_code r = some cr) :
    ((post_to_nntp env post reply).ret = 0 ↔ (cg = 200 ∨ cg = 201) ∧ ca = 340 ∧ cr = 240) ∧
    (¬ ((cg = 200 ∨ cg = 201) ∧ ca = 340 ∧ cr = 240) → (post_to_nntp env post reply).ret = -1) := by
  rw [post_to_nntp_ret]
  unfold outcome
  have hs' : ¬ env.socket_ret < 0 := by omega
  simp only [hs', hh, hc, hg, ha, hr, reduceCtorEq, or_self, if_false,
    sscanf_status_of_leading_code hcg, sscanf_status_of_leading_code hca,
    sscanf_status_of_leading_code hcr]
  by_cases h1 : cg = 200 ∨ cg = 201
  · have h1' : ¬ ((cg : Int) ≠ 200 ∧ (cg : Int) ≠ 201) := by omega
    rw [if_neg h1']
    by_cases h2 : ca = 340
    · have h2' : ¬ ((ca : Int) ≠ 340) := by omega
      rw [if_neg h2']
      by_cases h3 : cr = 240
      · have h3' : ¬ ((cr : Int) ≠ 240) := by omega
        rw [if_neg h3']
        simp [h1, h2, h3]
      · have h3' : (cr : Int) ≠ 240 := by omega
        rw [if_pos h3']
        simp [h3]
    · have h2' : (ca : Int) ≠ 340 := by omega
      rw [if_pos h2']
      simp [h2]
  · have h1' : (cg : Int) ≠ 200 ∧ (cg : Int) ≠ 201 := by omega
    rw [if_pos h1']
    simp [h1]

/-- Witness for C1: scenario 1, where the server answers `200 ok`, `340 go`, `240 posted`. -/
theorem post_to_nntp_result_by_codes_witness :
    ((post_to_nntp accepting_server (request "line1\nline2".toList) none).ret = 0
      ↔ ((200 = 200 ∨ 200 = 201) ∧ 340 = 340 ∧ 240 = 240)) ∧
    (¬ ((200 = 200 ∨ 200 = 201) ∧ 340 = 340 ∧ 240 = 240) →
      (post_to_nntp accepting_server (request "line1\nline2".toList) none).ret = -1) :=
  post_to_nntp_result_by_codes accepting_server (request "line1\nline2".toList) none
    "200 ok".toList "340 go".toList "240 posted".toList
    "340 go\r\n240 posted\r\n205 bye\r\n".toList "240 posted\r\n205 bye\r\n".toList
    "205 bye\r\n".toList 200 340 240
    (by decide) rfl rfl (by decide) (by decide) (by decide) (by decide) (by decide) (by decide)

/-- C7, as stated, fails: a greeting that begins with a space does not begin with a
three-digit code, yet `sscanf` skips the space, reads 200, and the post succeeds. -/
theorem lenient_greeting_accepted :
    read_nntp_line NNTP_BUFFER_SIZE lenient_greeting_server.inp
        = (some " 200 ok".toList, "340 go\r\n240 posted\r\n".toList) ∧
    leading_code " 200 ok".toList = none ∧
    (post_to_nntp lenient_greeting_server (request "line1\nline2".toList) none).ret = 0 := by
  decide

/-- C7, amended: in each reply-reading state the line is converted with `sscanf`'s
`%d`. A greeting that converts to a value other than 200 and 201 makes `post_to_nntp`
return -1; a POST acknowledgement that converts to nothing or to a value other than
340 makes it return -1; an article result that converts to nothing or to a value other
than 240 makes it return -1; whatever the rest of the line and the other replies are. -/
theorem post_to_nntp_rejects_unexpected_reply (env : Env) (post : nntp_post_data)
    (reply : Option Bytes) (g s1 : Bytes)
    (hg : read_nntp_line NNTP_BUFFER_SIZE env.inp = (some g, s1)) :
    ((∃ v, sscanf_d g = some v ∧ v ≠ 200 ∧ v ≠ 201) → (post_to_nntp env post reply).ret = -1) ∧
    (∀ a s2, read_nntp_line NNTP_BUFFER_SIZE s1 = (some a, s2) →
      (sscanf_d a ≠ some 340 → (post_to_nntp env post reply).ret = -1) ∧
      (∀ r s3, read_nntp_line NNTP_BUFFER_SIZE s2 = (some r, s3) →
        sscanf_d r ≠ some 240 → (post_to_nntp env post reply).ret = -1)) := by
  rw [post_to_nntp_ret]
  unfold outcome
  by_cases h0 : env.socket_ret < 0 ∨ env.host_ok = false ∨ env.connect_ok = false
  · rw [if_pos h0]
    simp
  rw [if_neg h0]
  simp only [hg]
  refine ⟨?_, ?_⟩
  · rintro ⟨v, hv, h200, h201⟩
    have : sscanf_status g env.status0 = v := by simp [sscanf_status, hv]
    rw [this, if_pos ⟨h200, h201⟩]
  · intro a s2 ha
    simp only [ha]
    by_cases h1 : sscanf_status g env.status0 ≠ 200 ∧ sscanf_status g env.status0 ≠ 201
    · rw [if_pos h1]
      simp
    rw [if_neg h1]
    have h340 : sscanf_d a ≠ some 340 → sscanf_status a (sscanf_status g env.status0) ≠ 340 := by
      intro hne
      unfold sscanf_status
      cases hsa : sscanf_d a with
      | none =>
        simp only
        cases hsg : sscanf_d g with
        | none => simp only [sscanf_status, hsg] at h1 ⊢; omega
        | some w => simp only [sscanf_status, hsg] at h1 ⊢; omega
      | some v =>
        simp only
        intro hv
        exact hne (by rw [hsa, hv])
    refine ⟨fun hne => by rw [if_pos (h340 hne)], ?_⟩
    intro r s3 hr hne
    simp only [hr]
    by_cases h2 : sscanf_status a (sscanf_status g env.status0) ≠ 340
    · rw [if_pos h2]
    rw [if_neg h2]
    have h240 : sscanf_status r (sscanf_status a (sscanf_status g env.status0)) ≠ 240 := by
      have e2 : sscanf_status a (sscanf_status g env.status0) = 340 := by omega
      rw [e2]
      unfold sscanf_status
      cases hsr : sscanf_d r with
      | none => simp
      | some v =>
        simp only
        intro hv
        exact hne (by rw [hsr, hv])
    rw [if_pos h240]

/-- Witness for the amended C7: the server of scenario 3 (`201 ready`, `340 send`,
`441 rejected`); the result line converts to 441 and the post fails. -/
theorem post_to_nntp_rejects_unexpected_reply_witness :
    (post_to_nntp (server "201 ready\r\n340 send\r\n441 rejected\r\n".toList)
      (request "line1\nline2".toList) none).ret = -1 :=
  ((post_to_nntp_rejects_unexpected_reply (server "201 ready\r\n340 send\r\n441 rejected\r\n".toList)
      (request "line1\nline2".toList) none "201 ready".toList
      "340 send\r\n441 rejected\r\n".toList (by decide)).2
    "340 send".toList "441 rejected\r\n".toList (by decide)).2
    "441 rejected".toList [] (by decide) (by decide)

/-- C8, as stated, fails: every write fails (the `POST` command, the headers, the body
and the terminator among them), the replies are still 200, 340 and 240, and
`post_to_nntp` returns 0. -/
theorem failed_writes_do_not_fail_the_post :
    Event.send "POST\r\n".toList false ∈
        (post_to_nntp broken_pipe_server (request "line1\nline2".toList) none).trace ∧
    Event.send ".\r\n".toList false ∈
        (post_to_nntp broken_pipe_server (request "line1\nline2".toList) none).trace ∧
    (∀ e ∈ (post_to_nntp broken_pipe_server (request "line1\nline2".toList) none).trace,
      e.wrote = false) ∧
    (post_to_nntp broken_pipe_server (request "line1\nline2".toList) none).ret = 0 := by
  decide

/-- C8, amended: `post_to_nntp` discards the result of every write, so the value it
returns does not depend on which writes fail; it is the value returned when every
write succeeds. -/
theorem post_to_nntp_ret_ignores_write_results (env : Env) (w : Nat → Bool)
    (post : nntp_post_data) (reply : Option Bytes) :
    (post_to_nntp { env with write_ok := w } post reply).ret = (post_to_nntp env post reply).ret := by
  rw [post_to_nntp_ret, post_to_nntp_ret]
  rfl

/-! ## `read_nntp_line` -/

theorem size_minus_one_eq {size : Nat} (h1 : 1 ≤ size) (h2 : size < 2 ^ 64) :
    size_minus_one size = size - 1 := by
  unfold size_minus_one
  omega

theorem crlf_suffix_concat (buf : Bytes) (c : Char) :
    ['\r', '\n'] <:+ buf ++ [c] ↔ c = '\n' ∧ buf.getLast? = some '\r' := by
  constructor
  · rintro ⟨s, hs⟩
    have h1 : s ++ ['\r'] ++ ['\n'] = buf ++ [c] := by simpa using hs
    have h2 := List.append_inj' h1 rfl
    have h3 : c = '\n' := by simpa using h2.2.symm
    refine ⟨h3, ?_⟩
    rw [← h2.1]
    simp
  · rintro ⟨rfl, hl⟩
    rcases List.eq_nil_or_concat buf with rfl | ⟨b, x, rfl⟩
    · simp at hl
    · simp at hl
      subst hl
      exact ⟨b, by simp⟩

theorem cstr_eq_self {l : Bytes} (h : '\x00' ∉ l) : cstr l = l := by
  unfold cstr
  rw [List.takeWhile_eq_self_iff]
  intro x hx
  simp only [bne_iff_ne, ne_eq]
  rintro rfl
  exact h hx

/-- The loop finds the first CR LF: started with `buf` in the buffer on a stream
`pre ++ CR LF ++ post` in which no CR LF ends before that one, and with room for it,
it returns the buffer contents and leaves `post` unread. -/
theorem read_loop_finds (size : Nat) (pre post : Bytes) :
    ∀ buf : Bytes, ¬ (['\r', '\n'] <:+: buf ++ pre ++ ['\r']) →
      (buf ++ pre).length + 2 ≤ size_minus_one size →
      read_nntp_line_loop size buf (pre ++ '\r' :: '\n' :: post) = (some (cstr (buf ++ pre)), post) := by
  induction pre with
  | nil =>
    intro buf _ hlen
    simp only [List.append_nil] at hlen ⊢
    have h1 : buf.length < size_minus_one size := by omega
    have h2 : (buf ++ ['\r']).length < size_minus_one size := by simp; omega
    simp only [List.nil_append]
    rw [read_nntp_line_loop, if_pos h1, if_neg (by simp), read_nntp_line_loop, if_pos h2,
      if_pos (by simp)]
    simp
  | cons x pre ih =>
    intro buf hno hlen
    have h1 : buf.length < size_minus_one size := by simp at hlen; omega
    have hc : ¬ (x = '\n' ∧ 0 < buf.length ∧ buf.getLast? = some '\r') := by
      rintro ⟨hx, _, hl⟩
      apply hno
      have hsuf : ['\r', '\n'] <:+ buf ++ [x] := (crlf_suffix_concat buf x).2 ⟨hx, hl⟩
      have : buf ++ x :: pre ++ ['\r'] = (buf ++ [x]) ++ (pre ++ ['\r']) := by simp
      rw [this]
      exact List.IsInfix.trans hsuf.isInfix (List.infix_append' [] (buf ++ [x]) (pre ++ ['\r']))
    simp only [List.cons_append]
    rw [read_nntp_line_loop, if_pos h1, if_neg hc]
    have e : buf ++ x :: pre = (buf ++ [x]) ++ pre := by simp
    rw [e] at hno hlen ⊢
    exact ih (buf ++ [x]) hno hlen

/-- Whenever the loop succeeds it has stopped at the first CR LF. -/
theorem read_loop_found (size : Nat) :
    ∀ (inp buf line rest : Bytes), ¬ (['\r', '\n'] <:+: buf) →
      read_nntp_line_loop size buf inp = (some line, rest) →
      (∃ pre, inp = pre ++ '\r' :: '\n' :: rest ∧ ¬ (['\r', '\n'] <:+: buf ++ pre ++ ['\r']) ∧
          (buf ++ pre).length + 2 ≤ size_minus_one size ∧ line = cstr (buf ++ pre)) ∨
      (∃ b, buf = b ++ ['\r'] ∧ inp = '\n' :: rest ∧ line = cstr b ∧
          buf.length + 1 ≤ size_minus_one size) := by
  intro inp
  induction inp with
  | nil =>
    intro buf line rest _ h
    simp [read_nntp_line_loop] at h
  | cons c inp ih =>
    intro buf line rest hbuf h
    rw [read_nntp_line_loop] at h
    by_cases h1 : buf.length < size_minus_one size
    swap
    · rw [if_neg h1] at h
      simp at h
    rw [if_pos h1] at h
    by_cases hc : c = '\n' ∧ 0 < buf.length ∧ buf.getLast? = some '\r'
    · rw [if_pos hc] at h
      right
      obtain ⟨rfl, _, hl⟩ := hc
      rcases List.eq_nil_or_concat buf with rfl | ⟨b, x, hbx⟩
      · simp at hl
      · rw [List.concat_eq_append] at hbx
        subst hbx
        simp at hl
        subst hl
        simp only [List.dropLast_concat, Prod.mk.injEq, Option.some.injEq] at h
        exact ⟨b, rfl, by rw [h.2], h.1.symm, by omega⟩
    · rw [if_neg hc] at h
      have hbuf' : ¬ (['\r', '\n'] <:+: buf ++ [c]) := by
        rw [List.infix_concat_iff]
        rintro (hs | hi)
        · have := (crlf_suffix_concat buf c).1 hs
          apply hc
          refine ⟨this.1, ?_, this.2⟩
          rcases buf with _ | ⟨y, ys⟩
          · simp at this
          · simp
        · exact hbuf hi
      rcases ih (buf ++ [c]) line rest hbuf' h with ⟨pre, hi, hno, hlen, hline⟩ | ⟨b, hb, hi, hline, hlen⟩
      · left
        refine ⟨c :: pre, by simp [hi], ?_, ?_, ?_⟩
        · simpa using hno
        · simpa using hlen
        · simpa using hline
      · left
        have hb2 := List.append_inj' hb rfl
        obtain ⟨rfl, hcr⟩ := hb2
        simp only [List.cons.injEq, and_true] at hcr
        subst hcr
        refine ⟨[], by simp [hi], ?_, ?_, ?_⟩
        · simpa using hbuf'
        · simp at hlen ⊢; omega
        · simpa using hline

/-- C10: for a buffer size `maxLen >= 2` (a `size_t`) and an incoming stream without
NUL bytes, `read_nntp_line` returns 0 if and only if the first CR LF of the stream
ends within the first `maxLen - 1` bytes (the stream being the bytes delivered before
a read fails); it then leaves in the buffer exactly the bytes before that CR and has
consumed exactly those bytes and the CR LF; in every other case (the buffer fills up,
or the peer closes first) it returns -1. -/
theorem read_nntp_line_first_crlf (maxLen : Nat) (stream : Bytes) (h2 : 2 ≤ maxLen)
    (hsz : maxLen < 2 ^ 64) (hnul : '\x00' ∉ stream) :
    ((∃ line rest, read_nntp_line maxLen stream = (some line, rest)) ↔
      ∃ pre post, stream = pre ++ '\r' :: '\n' :: post ∧ ¬ (['\r', '\n'] <:+: pre ++ ['\r']) ∧
        pre.length + 2 ≤ maxLen - 1) ∧
    (∀ pre post, stream = pre ++ '\r' :: '\n' :: post → ¬ (['\r', '\n'] <:+: pre ++ ['\r']) →
        pre.length + 2 ≤ maxLen - 1 → read_nntp_line maxLen stream = (some pre, post)) ∧
    ((¬ ∃ pre post, stream = pre ++ '\r' :: '\n' :: post ∧ ¬ (['\r', '\n'] <:+: pre ++ ['\r']) ∧
        pre.length + 2 ≤ maxLen - 1) → (read_nntp_line maxLen stream).1 = none) := by
  have hsm := size_minus_one_eq (by omega : 1 ≤ maxLen) hsz
  have hfwd : ∀ pre post, stream = pre ++ '\r' :: '\n' :: post →
      ¬ (['\r', '\n'] <:+: pre ++ ['\r']) →
      pre.length + 2 ≤ maxLen - 1 → read_nntp_line maxLen stream = (some pre, post) := by
    intro pre post hst hno hlen
    have hpre : '\x00' ∉ pre := by
      intro hm
      exact hnul (by rw [hst]; exact List.mem_append_left _ hm)
    have := read_loop_finds maxLen pre post [] (by simpa using hno) (by rw [hsm]; simpa using hlen)
    rw [read_nntp_line, hst, this]
    simp [cstr_eq_self hpre]
  have hbwd : ∀ line rest, read_nntp_line maxLen stream = (some line, rest) →
      ∃ pre post, stream = pre ++ '\r' :: '\n' :: post ∧ ¬ (['\r', '\n'] <:+: pre ++ ['\r']) ∧
        pre.length + 2 ≤ maxLen - 1 := by
    intro line rest h
    rcases read_loop_found maxLen stream [] line rest (by simp) h with
      ⟨pre, hi, hno, hlen, _⟩ | ⟨b, hb, _⟩
    · exact ⟨pre, rest, hi, by simpa using hno, by rw [hsm] at hlen; simpa using hlen⟩
    · simp at hb
  refine ⟨⟨fun ⟨line, rest, h⟩ => hbwd line rest h, fun ⟨pre, post, h1, h2, h3⟩ =>
    ⟨pre, post, hfwd pre post h1 h2 h3⟩⟩, hfwd, ?_⟩
  intro hnone
  rcases hr : read_nntp_line maxLen stream with ⟨_ | line, rest⟩
  · rfl
  · exact absurd (hbwd line rest hr) hnone

/-- Witness for C10: a 1024-byte buffer and the stream `200 ok` CR LF `340 go` CR LF. -/
theorem read_nntp_line_first_crlf_witness :
    read_nntp_line 1024 "200 ok\r\n340 go\r\n".toList = (some "200 ok".toList, "340 go\r\n".toList) :=
  (read_nntp_line_first_crlf 1024 "200 ok\r\n340 go\r\n".toList (by decide) (by decide)
    (by decide)).2.1 "200 ok".toList "340 go\r\n".toList (by decide) (by decide) (by decide)

/-! ## What `post_to_nntp` writes -/

theorem writes_append (t1 t2 : List Event) : writes (t1 ++ t2) = writes t1 ++ writes t2 := by
  simp [writes, List.filterMap_append]

theorem writes_perform (env : Env) (cs : List Call) :
    ∀ st : St, writes (perform env st cs).trace = writes st.trace ++ cs.map Call.bytes := by
  induction cs with
  | nil => intro st; simp [perform]
  | cons c cs ih =>
    intro st
    cases c with
    | send b =>
      rw [perform, ih]
      simp [send_nntp_command, writes_append, writes, Event.payload, Call.bytes]
    | write b =>
      rw [perform, ih]
      simp [write, writes_append, writes, Event.payload, Call.bytes]

/-- Once the greeting and the POST acknowledgement have been read and accepted, the
buffers handed to `write` are the `POST` command, the header block, the body lines,
the terminator line and `QUIT`, whatever the article result is. -/
theorem post_to_nntp_writes_after_340 (env : Env) (post : nntp_post_data) (reply : Option Bytes)
    (g a s1 s2 : Bytes)
    (hs : 0 ≤ env.socket_ret) (hh : env.host_ok = true) (hc : env.connect_ok = true)
    (hg : read_nntp_line NNTP_BUFFER_SIZE env.inp = (some g, s1))
    (hgc : sscanf_status g env.status0 = 200 ∨ sscanf_status g env.status0 = 201)
    (ha : read_nntp_line NNTP_BUFFER_SIZE s1 = (some a, s2))
    (hac : sscanf_status a (sscanf_status g env.status0) = 340) :
    writes (post_to_nntp env post reply).trace =
      "POST\r\n".toList :: ((header_calls env post reply).map Call.bytes
        ++ (body_calls post.body).map Call.bytes ++ [".\r\n".toList, "QUIT\r\n".toList]) := by
  have hs' : ¬ env.socket_ret < 0 := by omega
  have h1 : ¬ (sscanf_status g env.status0 ≠ 200 ∧ sscanf_status g env.status0 ≠ 201) := by omega
  have h2 : ¬ (sscanf_status a (sscanf_status g env.status0) ≠ 340) := by omega
  unfold post_to_nntp
  simp only [hs', hh, hc, if_false, sock_read_line, send_nntp_command_inp, perform_inp,
    reduceCtorEq, hg]
  rw [if_neg h1]
  simp only [ha]
  rw [if_neg h2]
  rcases hr : read_nntp_line NNTP_BUFFER_SIZE s2 with ⟨_ | r, s3⟩
  · simp [nntp_error, hs, close, send_nntp_command, writes_append, writes_perform]
    simp [writes, Event.payload]
  dsimp only
  by_cases h3 : sscanf_status r (sscanf_status a (sscanf_status g env.status0)) ≠ 240
  · rw [if_pos h3]
    simp [nntp_error, hs, close, send_nntp_command, writes_append, writes_perform]
    simp [writes, Event.payload]
  · rw [if_neg h3]
    simp [nntp_error, hs, close, send_nntp_command, writes_append, writes_perform]
    simp [writes, Event.payload]

theorem snprintf_of_le {size : Nat} {l : Bytes} (h : l.length ≤ size - 1) : snprintf size l = l := by
  unfold snprintf
  exact List.take_of_length_le h

theorem message_id_length (env : Env) : (message_id env).length ≤ 255 := by
  unfold message_id snprintf
  exact (List.length_take_le _ _)

/-- C6, as stated, fails: with a sender of 1016 bytes the `From` line is cut to the 1023
bytes the line buffer holds, so it is written without its final LF and is followed
directly by the `Newsgroups` line. -/
theorem long_from_line_is_cut :
    (writes (post_to_nntp accepting_server long_from_request none).trace).take 3 =
      ["POST\r\n".toList, "From: ".toList ++ List.replicate 1016 'a' ++ "\r".toList,
        "Newsgroups: test.group\r\n".toList] ∧
    (writes (post_to_nntp accepting_server long_from_request none).trace).take 2 ≠
      ["POST\r\n".toList, "From: ".toList ++ long_from_request.«from» ++ "\r\n".toList] := by
  decide

/-- C6, amended: for every from, newsgroups and subject string and every optional reply
id whose header line, CR LF included, fits the 1023 bytes that `snprintf` leaves in the
1024-byte line buffer, once the server has answered 340 the writes that follow `POST`
are exactly, in this order and each terminated by CR LF: `From: <from>`,
`Newsgroups: <newsgroups>`, `Subject: <subject>`, `Message-ID: <generated id>`,
`Content-Type: text/plain; charset=UTF-8`, `Content-Transfer-Encoding: 8bit`, then
`References: <reply id>` with the reply id unchanged exactly when one was supplied,
then a single empty line. -/
theorem header_block_written_after_340 (env : Env) (post : nntp_post_data)
    (reply : Option Bytes) (g a s1 s2 : Bytes)
    (hs : 0 ≤ env.socket_ret) (hh : env.host_ok = true) (hc : env.connect_ok = true)
    (hg : read_nntp_line NNTP_BUFFER_SIZE env.inp = (some g, s1))
    (hgc : sscanf_status g env.status0 = 200 ∨ sscanf_status g env.status0 = 201)
    (ha : read_nntp_line NNTP_BUFFER_SIZE s1 = (some a, s2))
    (hac : sscanf_status a (sscanf_status g env.status0) = 340)
    (hfrom : post.«from».length ≤ 1015) (hgroups : post.newsgroups.length ≤ 1009)
    (hsubject : post.subject.length ≤ 1012) (hreply : ∀ id, reply = some id → id.length ≤ 1009) :
    ∃ rest, writes (post_to_nntp env post reply).trace =
      "POST\r\n".toList ::
        ([ "From: ".toList ++ post.«from» ++ "\r\n".toList,
           "Newsgroups: ".toList ++ post.newsgroups ++ "\r\n".toList,
           "Subject: ".toList ++ post.subject ++ "\r\n".toList,
           "Message-ID: ".toList ++ message_id env ++ "\r\n".toList,
           "Content-Type: text/plain; charset=UTF-8\r\n".toList,
           "Content-Transfer-Encoding: 8bit\r\n".toList ]
          ++ (match reply with
              | some id => ["References: ".toList ++ id ++ "\r\n".toList]
              | none => [])
          ++ ["\r\n".toList] ++ rest) := by
  refine ⟨(body_calls post.body).map Call.bytes ++ [".\r\n".toList, "QUIT\r\n".toList], ?_⟩
  rw [post_to_nntp_writes_after_340 env post reply g a s1 s2 hs hh hc hg hgc ha hac]
  have hmid := message_id_length env
  have e1 : snprintf NNTP_BUFFER_SIZE ("From: ".toList ++ post.«from» ++ "\r\n".toList)
      = "From: ".toList ++ post.«from» ++ "\r\n".toList :=
    snprintf_of_le (by simp [NNTP_BUFFER_SIZE]; omega)
  have e2 : snprintf NNTP_BUFFER_SIZE ("Newsgroups: ".toList ++ post.newsgroups ++ "\r\n".toList)
      = "Newsgroups: ".toList ++ post.newsgroups ++ "\r\n".toList :=
    snprintf_of_le (by simp [NNTP_BUFFER_SIZE]; omega)
  have e3 : snprintf NNTP_BUFFER_SIZE ("Subject: ".toList ++ post.subject ++ "\r\n".toList)
      = "Subject: ".toList ++ post.subject ++ "\r\n".toList :=
    snprintf_of_le (by simp [NNTP_BUFFER_SIZE]; omega)
  have e4 : snprintf NNTP_BUFFER_SIZE ("Message-ID: ".toList ++ message_id env ++ "\r\n".toList)
      = "Message-ID: ".toList ++ message_id env ++ "\r\n".toList :=
    snprintf_of_le (by simp [NNTP_BUFFER_SIZE]; omega)
  have e5 : snprintf NNTP_BUFFER_SIZE "Content-Type: text/plain; charset=UTF-8\r\n".toList
      = "Content-Type: text/plain; charset=UTF-8\r\n".toList := snprintf_of_le (by decide)
  have e6 : snprintf NNTP_BUFFER_SIZE "Content-Transfer-Encoding: 8bit\r\n".toList
      = "Content-Transfer-Encoding: 8bit\r\n".toList := snprintf_of_le (by decide)
  unfold header_calls
  rw [e1, e2, e3, e4, e5, e6]
  cases reply with
  | none => simp [Call.bytes]
  | some id =>
    have e7 : snprintf NNTP_BUFFER_SIZE ("References: ".toList ++ id ++ "\r\n".toList)
        = "References: ".toList ++ id ++ "\r\n".toList :=
      snprintf_of_le (by have := hreply id rfl; simp [NNTP_BUFFER_SIZE]; omega)
    simp only [e7]
    simp [Call.bytes]

/-- Witness for the amended C6: scenario 2, a reply to `<42@server>`. -/
theorem header_block_written_after_340_witness :
    ∃ rest, writes (post_to_nntp accepting_server (request "line1\nline2".toList)
        (some "<42@server>".toList)).trace =
      "POST\r\n".toList ::
        ([ "From: ".toList ++ "a@b.com".toList ++ "\r\n".toList,
           "Newsgroups: ".toList ++ "test.group".toList ++ "\r\n".toList,
           "Subject: ".toList ++ "hi".toList ++ "\r\n".toList,
           "Message-ID: ".toList ++ message_id accepting_server ++ "\r\n".toList,
           "Content-Type: text/plain; charset=UTF-8\r\n".toList,
           "Content-Transfer-Encoding: 8bit\r\n".toList ]
          ++ ["References: ".toList ++ "<42@server>".toList ++ "\r\n".toList]
          ++ ["\r\n".toList] ++ rest) :=
  header_block_written_after_340 accepting_server (request "line1\nline2".toList)
    (some "<42@server>".toList) "200 ok".toList "340 go".toList
    "340 go\r\n240 posted\r\n205 bye\r\n".toList "240 posted\r\n205 bye\r\n".toList
    (by decide) rfl rfl (by decide) (by decide) (by decide) (by decide)
    (by decide) (by decide) (by decide) (by decide)

/-! ## Body framing at concrete bodies -/

/-- C2 at the body of scenario 1: the first line is written as `line1` LF, then a lone
CR, so it reaches the server terminated by LF CR instead of CR LF. -/
theorem body_line_terminated_lf_cr :
    (body_calls "line1\nline2".toList).map Call.bytes
      = ["line1\n".toList, "\r".toList, "line2".toList, "\r\n".toList] ∧
    written (post_to_nntp accepting_server (request "line1\nline2".toList) none).trace
      = ("POST\r\nFrom: a@b.com\r\nNewsgroups: test.group\r\nSubject: hi\r\n"
          ++ "Message-ID: <1700000000.42@host>\r\nContent-Type: text/plain; charset=UTF-8\r\n"
          ++ "Content-Transfer-Encoding: 8bit\r\n\r\nline1\n\rline2\r\n.\r\nQUIT\r\n").toList := by
  decide

/-- C3 at a body that ends with a newline: the article ends `abc` LF CR `.` CR LF, so
the terminator is preceded by LF CR and the last CR-LF-delimited line is not `.`. -/
theorem terminator_not_on_its_own_line :
    written (post_to_nntp accepting_server (request "abc\n".toList) none).trace
      = ("POST\r\nFrom: a@b.com\r\nNewsgroups: test.group\r\nSubject: hi\r\n"
          ++ "Message-ID: <1700000000.42@host>\r\nContent-Type: text/plain; charset=UTF-8\r\n"
          ++ "Content-Transfer-Encoding: 8bit\r\n\r\nabc\n\r.\r\nQUIT\r\n").toList ∧
    split_crlf ("\r\n".toList ++ body_bytes "abc\n".toList ++ ".\r\n".toList)
      = ["".toList, "abc\n\r.".toList, "".toList] := by
  decide

/-- C5 at the body `a` LF `b`: the body bytes are `a` LF CR `b` CR LF, which split at
CR LF into the single line `a` LF CR `b` (and the empty piece after the last CR LF),
not into the lines `a` and `b` of the body. -/
theorem destuffing_does_not_recover_lines :
    body_bytes "a\nb".toList = "a\n\rb\r\n".toList ∧
    (split_crlf (body_bytes "a\nb".toList)).map destuff = ["a\n\rb".toList, "".toList] ∧
    split_newline "a\nb".toList = ["a".toList, "b".toList] := by
  decide

/-! ## The body never contains the end-of-article marker -/

theorem strchr_some_split (c : Char) :
    ∀ (s : Bytes) (k : Nat), strchr s c = some k →
      ∃ line rest, s = line ++ c :: rest ∧ c ∉ line ∧ line.length = k := by
  intro s
  induction s with
  | nil => intro k h; simp [strchr] at h
  | cons x xs ih =>
    intro k h
    rw [strchr] at h
    by_cases hx : x = c
    · rw [if_pos hx] at h
      simp only [Option.some.injEq] at h
      exact ⟨[], xs, by simp [hx], by simp, by simpa using h⟩
    · rw [if_neg hx] at h
      cases hk : strchr xs c with
      | none => simp [hk] at h
      | some k' =>
        simp only [hk, Option.map_some', Option.some.injEq] at h
        obtain ⟨line, rest, hs, hl, hlen⟩ := ih k' hk
        refine ⟨x :: line, rest, by simp [hs], ?_, by simp [hlen, h]⟩
        simp only [List.mem_cons, not_or]
        exact ⟨fun e => hx e.symm, hl⟩

theorem strchr_none_not_mem (c : Char) : ∀ s : Bytes, strchr s c = none → c ∉ s := by
  intro s
  induction s with
  | nil => intro _; simp
  | cons x xs ih =>
    intro h
    rw [strchr] at h
    by_cases hx : x = c
    · rw [if_pos hx] at h
      simp at h
    · rw [if_neg hx] at h
      simp only [Option.map_eq_none'] at h
      simp only [List.mem_cons, not_or]
      exact ⟨fun e => hx e.symm, ih h⟩

/-- One iteration of the body loop on a `line_start` whose first newline ends `line`. -/
theorem body_loop_step (fuel : Nat) (s : Bytes) (k : Nat) (h : strchr s '\n' = some k) :
    ∃ line rest, s = line ++ '\n' :: rest ∧ '\n' ∉ line ∧
      body_loop (fuel + 1) s =
        ((if s.head? = some '.' then [Call.send ".".toList] else [])
          ++ [Call.write (line ++ ['\n']), Call.send "\r".toList] ++ (body_loop fuel rest).1,
         (body_loop fuel rest).2) := by
  obtain ⟨line, rest, hs, hl, hlen⟩ := strchr_some_split '\n' s k h
  refine ⟨line, rest, hs, hl, ?_⟩
  rw [body_loop]
  simp only [h]
  have e1 : s.take (k + 1) = line ++ ['\n'] := by
    rw [hs, ← hlen]
    have : line ++ '\n' :: rest = (line ++ ['\n']) ++ rest := by simp
    rw [this, List.take_left' (by simp)]
  have e2 : s.drop (k + 1) = rest := by
    rw [hs, ← hlen]
    have : line ++ '\n' :: rest = (line ++ ['\n']) ++ rest := by simp
    rw [this, List.drop_left' (by simp)]
  rw [e1, e2]

/-- With more fuel than bytes the loop ends because no newline is left, not because the
fuel ran out. -/
theorem body_loop_fuel_enough :
    ∀ (fuel : Nat) (s : Bytes), s.length < fuel → '\n' ∉ (body_loop fuel s).2 := by
  intro fuel
  induction fuel with
  | zero => intro s h; omega
  | succ fuel ih =>
    intro s hlen
    cases hk : strchr s '\n' with
    | none =>
      rw [body_loop]
      simp only [hk]
      exact strchr_none_not_mem '\n' s hk
    | some k =>
      obtain ⟨line, rest, hs, _, hstep⟩ := body_loop_step fuel s k hk
      rw [hstep]
      apply ih
      rw [hs] at hlen
      simp at hlen
      omega

theorem pair_prefix_iff (x y : Char) (l : Bytes) :
    [x, y] <+: l ↔ ∃ t, l = x :: y :: t := by
  constructor
  · rintro ⟨t, ht⟩
    exact ⟨t, by simpa using ht.symm⟩
  · rintro ⟨t, rfl⟩
    exact ⟨t, by simp⟩

/-- An occurrence of a two-byte sequence in `a ++ b` lies in `a`, in `b`, or across the
seam. -/
theorem pair_infix_append (x y : Char) (b : Bytes) :
    ∀ a : Bytes, [x, y] <:+: a ++ b →
      [x, y] <:+: a ∨ [x, y] <:+: b ∨ (a.getLast? = some x ∧ b.head? = some y) := by
  intro a
  induction a with
  | nil => intro h; right; left; simpa using h
  | cons c a ih =>
    intro h
    rw [List.cons_append, List.infix_cons_iff] at h
    rcases h with hp | hi
    · obtain ⟨t, ht⟩ := (pair_prefix_iff x y _).1 hp
      simp only [List.cons.injEq] at ht
      obtain ⟨rfl, ht⟩ := ht
      cases a with
      | nil =>
        right; right
        simp only [List.nil_append] at ht
        simp [ht]
      | cons d a' =>
        left
        simp only [List.cons_append, List.cons.injEq] at ht
        obtain ⟨rfl, _⟩ := ht
        exact ⟨[], a', by simp⟩
    · rcases ih hi with h1 | h2 | ⟨h3, h4⟩
      · left
        exact List.infix_cons h1
      · right; left; exact h2
      · right; right
        refine ⟨?_, h4⟩
        cases a with
        | nil => simp at h3
        | cons d a' => simpa using h3

theorem pair_not_infix_of_not_mem {x y : Char} {l : Bytes} (h : x ∉ l) : ¬ ([x, y] <:+: l) := by
  rintro ⟨s, t, rfl⟩
  exact h (by simp)

theorem not_lf_dot_infix_line (d line : Bytes) (hd : '\n' ∉ d) (hl : '\n' ∉ line) (tail : Bytes)
    (ht : tail = ['\n', '\r'] ∨ tail = ['\r', '\n']) :
    ¬ (['\n', '.'] <:+: d ++ line ++ tail) := by
  have hdl : '\n' ∉ d ++ line := by simp [hd, hl]
  intro h
  rcases pair_infix_append '\n' '.' tail (d ++ line) h with h1 | h2 | ⟨_, h4⟩
  · exact pair_not_infix_of_not_mem hdl h1
  · rcases ht with rfl | rfl
    · revert h2; decide
    · revert h2; decide
  · rcases ht with rfl | rfl
    · simp at h4
    · simp at h4

theorem last_line_marker_free (ls : Bytes) (h : '\n' ∉ ls) :
    marker_free ((last_line_calls ls).map Call.bytes).flatten := by
  unfold last_line_calls
  cases ls with
  | nil => simp [marker_free]
  | cons c t =>
    simp only [ne_eq, reduceCtorEq, not_false_eq_true, if_true, List.head?_cons, Option.some.injEq]
    by_cases hc : c = '.'
    · subst hc
      simp only [if_true, List.map_append, List.map_cons, List.map_nil, Call.bytes,
        List.flatten_append, List.flatten_cons, List.flatten_nil, List.append_nil]
      refine ⟨?_, by simp⟩
      have := not_lf_dot_infix_line ".".toList ('.' :: t) (by decide) h ['\r', '\n'] (Or.inr rfl)
      simpa using this
    · simp only [hc, if_false, List.nil_append, List.map_cons, List.map_nil, Call.bytes,
        List.flatten_cons, List.flatten_nil, List.append_nil]
      refine ⟨?_, by simp [hc]⟩
      have := not_lf_dot_infix_line [] (c :: t) (by simp) h ['\r', '\n'] (Or.inr rfl)
      simpa using this

/-- The bytes written for a body, for any fuel that exceeds its length, are free of the
marker. -/
theorem body_region_marker_free :
    ∀ (fuel : Nat) (s : Bytes), s.length < fuel →
      marker_free (((body_loop fuel s).1 ++ last_line_calls (body_loop fuel s).2).map
        Call.bytes).flatten := by
  intro fuel
  induction fuel with
  | zero => intro s h; omega
  | succ fuel ih =>
    intro s hlen
    cases hk : strchr s '\n' with
    | none =>
      have hb : body_loop (fuel + 1) s = ([], s) := by
        rw [body_loop]
        simp only [hk]
      rw [hb]
      simpa using last_line_marker_free s (strchr_none_not_mem '\n' s hk)
    | some k =>
      obtain ⟨line, rest, hs, hl, hstep⟩ := body_loop_step fuel s k hk
      have hrest : rest.length < fuel := by
        rw [hs] at hlen
        simp at hlen
        omega
      have hR := ih rest hrest
      obtain ⟨R', hR'⟩ : ∃ R', R' = (((body_loop fuel rest).1
          ++ last_line_calls (body_loop fuel rest).2).map Call.bytes).flatten := ⟨_, rfl⟩
      rw [← hR'] at hR
      have e : (((body_loop (fuel + 1) s).1 ++ last_line_calls (body_loop (fuel + 1) s).2).map
          Call.bytes).flatten
          = ((if s.head? = some '.' then ".".toList else []) ++ line ++ ['\n', '\r']) ++ R' := by
        rw [hstep, hR']
        by_cases hd : s.head? = some '.'
        · simp [hd, Call.bytes]
        · simp [hd, Call.bytes]
      rw [e]
      have hdot : '\n' ∉ (if s.head? = some '.' then ".".toList else []) := by
        split_ifs
        · decide
        · simp
      refine ⟨?_, ?_⟩
      · intro h
        rcases pair_infix_append _ _ R' _ h with h1 | h2 | ⟨h3, _⟩
        · exact not_lf_dot_infix_line _ line hdot hl ['\n', '\r'] (Or.inl rfl) h1
        · exact hR.1 h2
        · simp at h3
      · cases line with
        | nil =>
          have hh : s.head? = some '\n' := by rw [hs]; rfl
          simp [hh]
        | cons c line' =>
          have hh : s.head? = some c := by rw [hs]; rfl
          by_cases hc : c = '.'
          · subst hc
            simp [hh]
          · simp [hh, hc]

/-- Where a line of `split_crlf_from cur s` sits in `cur ++ s`: it is the first line,
or the whole sequence, or it stands between two CR LF, or after the last one. -/
theorem split_crlf_from_mem (l : Bytes) :
    ∀ (s cur : Bytes), l ∈ split_crlf_from cur s →
      (l ++ ['\r', '\n'] <+: cur ++ s) ∨ l = cur ++ s ∨
      (['\r', '\n'] ++ l ++ ['\r', '\n'] <:+: cur ++ s) ∨ (['\r', '\n'] ++ l <:+ cur ++ s) := by
  intro s
  induction s with
  | nil =>
    intro cur h
    simp only [split_crlf_from, List.mem_singleton] at h
    right; left
    simpa using h
  | cons c rest ih =>
    intro cur h
    rw [split_crlf_from] at h
    by_cases hc : c = '\n' ∧ cur.getLast? = some '\r'
    · rw [if_pos hc] at h
      obtain ⟨rfl, hl⟩ := hc
      rcases List.eq_nil_or_concat cur with rfl | ⟨b, x, hbx⟩
      · simp at hl
      rw [List.concat_eq_append] at hbx
      subst hbx
      simp at hl
      subst hl
      simp only [List.dropLast_concat, List.mem_cons] at h
      have etot : b ++ ['\r'] ++ '\n' :: rest = b ++ (['\r', '\n'] ++ rest) := by simp
      rw [etot]
      rcases h with rfl | h
      · left
        exact ⟨rest, by simp⟩
      · rcases ih [] h with h1 | h2 | h3 | h4
        · right; right; left
          obtain ⟨t, ht⟩ := h1
          simp only [List.nil_append] at ht
          exact ⟨b, t, by rw [← ht]; simp⟩
        · right; right; right
          simp only [List.nil_append] at h2
          exact ⟨b, by rw [h2]⟩
        · right; right; left
          simp only [List.nil_append] at h3
          exact List.IsInfix.trans h3
            (List.IsSuffix.trans (List.suffix_append ['\r', '\n'] rest)
              (List.suffix_append b _)).isInfix
        · right; right; right
          simp only [List.nil_append] at h4
          exact List.IsSuffix.trans h4
            (List.IsSuffix.trans (List.suffix_append ['\r', '\n'] rest) (List.suffix_append b _))
    · rw [if_neg hc] at h
      have := ih (cur ++ [c]) h
      simpa using this

theorem marker_free_no_dot_line {r : Bytes} (h : marker_free r) : ['.'] ∉ split_crlf r := by
  intro hm
  have hlf : ∀ {u : Bytes}, u <:+: r → ['\n', '.'] <:+: u → False :=
    fun hu hp => h.1 (List.IsInfix.trans hp hu)
  rcases split_crlf_from_mem ['.'] r [] hm with h1 | h2 | h3 | h4
  · obtain ⟨t, ht⟩ := h1
    simp only [List.nil_append, List.cons_append] at ht
    have := h.2 (by rw [← ht]; rfl)
    rw [← ht] at this
    simp at this
  · simp only [List.nil_append] at h2
    have := h.2 (by rw [← h2]; rfl)
    rw [← h2] at this
    simp at this
  · simp only [List.nil_append] at h3
    exact hlf h3 ⟨['\r'], ['\r', '\n'], by simp⟩
  · simp only [List.nil_append] at h4
    exact hlf h4.isInfix ⟨['\r'], [], by simp⟩

theorem marker_free_no_marker {r : Bytes} (h : marker_free r) :
    ¬ ("\r\n.\r\n".toList <:+: "\r\n".toList ++ r) := by
  intro hi
  have e1 : "\r\n.\r\n".toList = '\r' :: '\n' :: '.' :: '\r' :: ['\n'] := rfl
  have e2 : "\r\n".toList = ['\r', '\n'] := rfl
  rw [e1, e2] at hi
  simp only [List.cons_append, List.nil_append] at hi
  rw [List.infix_cons_iff] at hi
  rcases hi with hp | hi
  · simp only [List.cons_prefix_cons, true_and] at hp
    obtain ⟨t, ht⟩ := hp
    simp only [List.cons_append] at ht
    have := h.2 (by rw [← ht]; rfl)
    rw [← ht] at this
    simp at this
  · rw [List.infix_cons_iff] at hi
    rcases hi with hp | hi
    · simp only [List.cons_prefix_cons] at hp
      exact absurd hp.1 (by decide)
    · exact h.1 (List.IsInfix.trans ⟨['\r'], ['\r', '\n'], by simp⟩ hi)

theorem marker_free_marker_last {r : Bytes} (h : marker_free r) (u v : Bytes)
    (he : "\r\n".toList ++ r ++ ".\r\n".toList = u ++ "\r\n.\r\n".toList ++ v) : v = [] := by
  have e1 : "\r\n.\r\n".toList = ['\r', '\n', '.', '\r', '\n'] := rfl
  have e3 : ".\r\n".toList = ['.', '\r', '\n'] := rfl
  rw [e1, e3] at he
  rcases List.eq_nil_or_concat v with rfl | ⟨v1, z1, hv1⟩
  · rfl
  exfalso
  rw [List.concat_eq_append] at hv1
  subst hv1
  have he1 : ("\r\n".toList ++ r ++ ['.', '\r']) ++ ['\n']
      = (u ++ ['\r', '\n', '.', '\r', '\n'] ++ v1) ++ [z1] := by simpa using he
  have he1' := (List.append_inj' he1 rfl).1
  rcases List.eq_nil_or_concat v1 with rfl | ⟨v2, z2, hv2⟩
  · have he2 : ("\r\n".toList ++ r ++ ['.']) ++ ['\r'] = (u ++ ['\r', '\n', '.', '\r']) ++ ['\n'] := by
      simpa using he1'
    have := (List.append_inj' he2 rfl).2
    simp at this
  rw [List.concat_eq_append] at hv2
  subst hv2
  have he2 : ("\r\n".toList ++ r ++ ['.']) ++ ['\r']
      = (u ++ ['\r', '\n', '.', '\r', '\n'] ++ v2) ++ [z2] := by simpa using he1'
  have he2' := (List.append_inj' he2 rfl).1
  rcases List.eq_nil_or_concat v2 with rfl | ⟨v3, z3, hv3⟩
  · have he3 : ("\r\n".toList ++ r) ++ ['.'] = (u ++ ['\r', '\n', '.', '\r']) ++ ['\n'] := by
      simpa using he2'
    have := (List.append_inj' he3 rfl).2
    simp at this
  rw [List.concat_eq_append] at hv3
  subst hv3
  have he3 : ("\r\n".toList ++ r) ++ ['.']
      = (u ++ ['\r', '\n', '.', '\r', '\n'] ++ v3) ++ [z3] := by simpa using he2'
  have he3' := (List.append_inj' he3 rfl).1
  exact marker_free_no_marker h ⟨u, v3, by rw [he3', e1]⟩

theorem body_bytes_marker_free (body : Bytes) : marker_free (body_bytes body) := by
  unfold body_bytes body_calls
  exact body_region_marker_free (body.length + 1) body (by omega)

theorem header_calls_end_with_blank_line (env : Env) (post : nntp_post_data)
    (reply : Option Bytes) :
    (header_calls env post reply).getLast? = some (Call.send "\r\n".toList) := by
  unfold header_calls
  rw [List.getLast?_append]
  rfl

/-- C4: once the server has answered 340, what `post_to_nntp` writes is the `POST`
command, the header block ending with the blank line, the body region, the final
marker `.` CR LF and `QUIT`; and for every body the body region, between the blank
line and the final marker, never contains the end-of-article marker: none of its
CR-LF-delimited lines (its first line included) is exactly `.`, the sequence CR LF `.`
CR LF does not occur in the blank line's CR LF followed by the region, and its only
occurrence in the article once the final marker is appended is at the very end. -/
theorem body_region_never_contains_marker (env : Env) (post : nntp_post_data)
    (reply : Option Bytes) (g a s1 s2 : Bytes)
    (hs : 0 ≤ env.socket_ret) (hh : env.host_ok = true) (hc : env.connect_ok = true)
    (hg : read_nntp_line NNTP_BUFFER_SIZE env.inp = (some g, s1))
    (hgc : sscanf_status g env.status0 = 200 ∨ sscanf_status g env.status0 = 201)
    (ha : read_nntp_line NNTP_BUFFER_SIZE s1 = (some a, s2))
    (hac : sscanf_status a (sscanf_status g env.status0) = 340) :
    writes (post_to_nntp env post reply).trace =
      "POST\r\n".toList :: ((header_calls env post reply).map Call.bytes
        ++ (body_calls post.body).map Call.bytes ++ [".\r\n".toList, "QUIT\r\n".toList]) ∧
    (header_calls env post reply).getLast? = some (Call.send "\r\n".toList) ∧
    body_bytes post.body = ((body_calls post.body).map Call.bytes).flatten ∧
    ['.'] ∉ split_crlf (body_bytes post.body) ∧
    ¬ ("\r\n.\r\n".toList <:+: "\r\n".toList ++ body_bytes post.body) ∧
    ∀ u v, "\r\n".toList ++ body_bytes post.body ++ ".\r\n".toList
        = u ++ "\r\n.\r\n".toList ++ v → v = [] :=
  ⟨post_to_nntp_writes_after_340 env post reply g a s1 s2 hs hh hc hg hgc ha hac,
    header_calls_end_with_blank_line env post reply, rfl,
    marker_free_no_dot_line (body_bytes_marker_free post.body),
    marker_free_no_marker (body_bytes_marker_free post.body),
    marker_free_marker_last (body_bytes_marker_free post.body)⟩

/-- Witness for C4: a body whose lines start with `.` and carry CR characters, posted
to the server of scenario 1. -/
theorem body_region_never_contains_marker_witness :
    ['.'] ∉ split_crlf (body_bytes ".\n..\r\n.\r\n\n.".toList) ∧
    ¬ ("\r\n.\r\n".toList <:+: "\r\n".toList ++ body_bytes ".\n..\r\n.\r\n\n.".toList) :=
  have h := body_region_never_contains_marker accepting_server
    (request ".\n..\r\n.\r\n\n.".toList) none "200 ok".toList "340 go".toList
    "340 go\r\n240 posted\r\n205 bye\r\n".toList "240 posted\r\n205 bye\r\n".toList
    (by decide) rfl rfl (by decide) (by decide) (by decide) (by decide)
  ⟨h.2.2.2.1, h.2.2.2.2.1⟩

/-! ## Closing the connection -/

/-- The events `perform` appends: none is a close, and one is a `QUIT` command only if
the calls contain it. -/
theorem perform_events (env : Env) (cs : List Call) :
    ∀ st : St, ∃ evs, (perform env st cs).trace = st.trace ++ evs ∧
      ∀ e ∈ evs, e.is_close = false ∧ (e.is_quit = true → Call.send "QUIT\r\n".toList ∈ cs) := by
  induction cs with
  | nil => intro st; exact ⟨[], by simp [perform], by simp⟩
  | cons c cs ih =>
    intro st
    cases c with
    | send b =>
      obtain ⟨evs, he, hq⟩ := ih (send_nntp_command env st b).2
      refine ⟨Event.send b (env.write_ok (writes st.trace).length) :: evs, ?_, ?_⟩
      · rw [perform, he]
        simp [send_nntp_command]
      · intro e hmem
        simp only [List.mem_cons] at hmem
        rcases hmem with rfl | hmem
        · refine ⟨rfl, ?_⟩
          intro h
          simp only [Event.is_quit, decide_eq_true_eq] at h
          simp [h]
        · exact ⟨(hq e hmem).1, fun h => List.mem_cons_of_mem _ ((hq e hmem).2 h)⟩
    | write b =>
      obtain ⟨evs, he, hq⟩ := ih (write env st b).2
      refine ⟨Event.write b (env.write_ok (writes st.trace).length) :: evs, ?_, ?_⟩
      · rw [perform, he]
        simp [write]
      · intro e hmem
        simp only [List.mem_cons] at hmem
        rcases hmem with rfl | hmem
        · exact ⟨rfl, fun h => by simp [Event.is_quit] at h⟩
        · exact ⟨(hq e hmem).1, fun h => List.mem_cons_of_mem _ ((hq e hmem).2 h)⟩

theorem snprintf_head (c : Char) (l : Bytes) :
    (snprintf NNTP_BUFFER_SIZE (c :: l)).head? = some c := rfl

theorem quit_not_in_header_calls (env : Env) (post : nntp_post_data) (reply : Option Bytes) :
    Call.send "QUIT\r\n".toList ∉ header_calls env post reply := by
  have key : ∀ (c : Char) (l : Bytes), c ≠ 'Q' →
      Call.send "QUIT\r\n".toList ≠ Call.send (snprintf NNTP_BUFFER_SIZE (c :: l)) := by
    intro c l hc h
    have h1 : "QUIT\r\n".toList = snprintf NNTP_BUFFER_SIZE (c :: l) := by
      injection h
    have h2 := congrArg List.head? h1
    rw [snprintf_head] at h2
    have h3 : some 'Q' = some c := h2
    exact hc (Option.some.inj h3).symm
  unfold header_calls
  intro h
  rw [List.mem_append, List.mem_append] at h
  rcases h with (h | h) | h
  · simp only [List.mem_cons, List.not_mem_nil, or_false] at h
    rcases h with h | h | h | h | h | h
    · exact key 'F' _ (by decide) h
    · exact key 'N' _ (by decide) h
    · exact key 'S' _ (by decide) h
    · exact key 'M' _ (by decide) h
    · exact key 'C' _ (by decide) h
    · exact key 'C' _ (by decide) h
  · cases reply with
    | none => simp at h
    | some id =>
      simp only [List.mem_singleton] at h
      exact key 'R' _ (by decide) h
  · revert h
    decide

theorem body_loop_calls :
    ∀ (fuel : Nat) (s : Bytes), ∀ c ∈ (body_loop fuel s).1,
      c = Call.send ".".toList ∨ c = Call.send "\r".toList ∨ ∃ b, c = Call.write b := by
  intro fuel
  induction fuel with
  | zero => intro s c h; simp [body_loop] at h
  | succ fuel ih =>
    intro s c h
    cases hk : strchr s '\n' with
    | none =>
      rw [body_loop] at h
      simp [hk] at h
    | some k =>
      obtain ⟨line, rest, _, _, hstep⟩ := body_loop_step fuel s k hk
      rw [hstep] at h
      simp only [List.mem_append, List.mem_cons, List.mem_singleton, List.not_mem_nil,
        or_false] at h
      rcases h with (h | h | h) | h
      · split_ifs at h
        · left; simpa using h
        · simp at h
      · right; right; exact ⟨_, h⟩
      · right; left; exact h
      · exact ih rest c h

theorem quit_not_in_body_calls (body : Bytes) : Call.send "QUIT\r\n".toList ∉ body_calls body := by
  unfold body_calls
  simp only [List.mem_append, not_or]
  constructor
  · intro h
    rcases body_loop_calls _ _ _ h with h1 | h1 | ⟨b, h1⟩
    · revert h1; decide
    · revert h1; decide
    · cases h1
  · have hlf := body_loop_fuel_enough (body.length + 1) body (by omega)
    generalize (body_loop (body.length + 1) body).2 = ls at hlf
    unfold last_line_calls
    split_ifs with h1 h2
    · simp only [List.mem_append, List.mem_cons, List.mem_singleton, List.not_mem_nil, or_false,
        not_or]
      refine ⟨by decide, ?_, by decide⟩
      intro h
      injection h with h
      exact hlf (by rw [← h]; decide)
    · simp only [List.nil_append, List.mem_cons, List.mem_singleton, List.not_mem_nil, or_false,
        not_or]
      refine ⟨?_, by decide⟩
      intro h
      injection h with h
      exact hlf (by rw [← h]; decide)
    · simp

theorem nntp_error_trace (env : Env) (sock : Int) (st : St) (hs : 0 ≤ sock) :
    (nntp_error env sock st).trace
      = st.trace ++ [Event.send "QUIT\r\n".toList (env.write_ok (writes st.trace).length),
          Event.close] := by
  simp [nntp_error, hs, close, send_nntp_command]

/-- The shape of the trace once `connect` has succeeded: the socket, events that are
neither a close nor a `QUIT`, the `QUIT` command, at most the read of its reply, and
the close. -/
theorem post_to_nntp_trace_shape (env : Env) (post : nntp_post_data) (reply : Option Bytes)
    (hs : 0 ≤ env.socket_ret) (hh : env.host_ok = true) (hc : env.connect_ok = true) :
    ∃ mid ok tail, (post_to_nntp env post reply).trace
        = Event.socket :: mid ++ Event.send "QUIT\r\n".toList ok :: tail ++ [Event.close] ∧
      (∀ e ∈ mid, e.is_close = false ∧ e.is_quit = false) ∧
      (tail = [] ∨ ∃ l, tail = [Event.read_line l]) := by
  have hs' : ¬ env.socket_ret < 0 := by omega
  have herr : ∀ (st : St) (mid : List Event), st.trace = Event.socket :: mid →
      (∀ e ∈ mid, e.is_close = false ∧ e.is_quit = false) →
      ∃ mid ok tail, (nntp_error env env.socket_ret st).trace
          = Event.socket :: mid ++ Event.send "QUIT\r\n".toList ok :: tail ++ [Event.close] ∧
        (∀ e ∈ mid, e.is_close = false ∧ e.is_quit = false) ∧
        (tail = [] ∨ ∃ l, tail = [Event.read_line l]) := by
    intro st mid hst hmid
    refine ⟨mid, env.write_ok (writes st.trace).length, [], ?_, hmid, Or.inl rfl⟩
    rw [nntp_error_trace env _ st hs, hst]
    simp
  unfold post_to_nntp
  simp only [hs', hh, hc, if_false, sock_read_line, send_nntp_command_inp, perform_inp,
    reduceCtorEq]
  rcases hg : read_nntp_line NNTP_BUFFER_SIZE env.inp with ⟨_ | g, s1⟩
  · exact herr _ [Event.read_line none] (by simp) (by simp [Event.is_close, Event.is_quit])
  dsimp only
  by_cases h1 : sscanf_status g env.status0 ≠ 200 ∧ sscanf_status g env.status0 ≠ 201
  · rw [if_pos h1]
    exact herr _ [Event.read_line (some g)] (by simp) (by simp [Event.is_close, Event.is_quit])
  rw [if_neg h1]
  rcases ha : read_nntp_line NNTP_BUFFER_SIZE s1 with ⟨_ | a, s2⟩
  · exact herr _ [Event.read_line (some g), Event.send "POST\r\n".toList (env.write_ok 0),
      Event.read_line none] (by simp [send_nntp_command, writes, Event.payload])
      (by simp [Event.is_close, Event.is_quit])
  dsimp only
  have hmid1 : ∀ e ∈ [Event.read_line (some g), Event.send "POST\r\n".toList (env.write_ok 0),
      Event.read_line (some a)], e.is_close = false ∧ e.is_quit = false := by
    simp [Event.is_close, Event.is_quit]
  have e0 : ({ inp := s2, trace := (send_nntp_command env
      { inp := s1, trace := [Event.socket] ++ [Event.read_line (some g)] }
      "POST\r\n".toList).2.trace ++ [Event.read_line (some a)] } : St)
      = ⟨s2, [Event.socket, Event.read_line (some g),
          Event.send "POST\r\n".toList (env.write_ok 0), Event.read_line (some a)]⟩ := by
    simp [send_nntp_command, writes, Event.payload]
  rw [e0]
  by_cases h2 : sscanf_status a (sscanf_status g env.status0) ≠ 340
  · rw [if_pos h2]
    exact herr _ _ rfl hmid1
  rw [if_neg h2]
  obtain ⟨evH, heH, hqH⟩ := perform_events env (header_calls env post reply)
    ⟨s2, [Event.socket, Event.read_line (some g),
      Event.send "POST\r\n".toList (env.write_ok 0), Event.read_line (some a)]⟩
  obtain ⟨evB, heB, hqB⟩ := perform_events env (body_calls post.body)
    (perform env ⟨s2, [Event.socket, Event.read_line (some g),
      Event.send "POST\r\n".toList (env.write_ok 0), Event.read_line (some a)]⟩
      (header_calls env post reply))
  have hquietH : ∀ e ∈ evH, e.is_close = false ∧ e.is_quit = false := by
    intro e he
    refine ⟨(hqH e he).1, ?_⟩
    cases hq : e.is_quit with
    | false => rfl
    | true => exact absurd ((hqH e he).2 hq) (quit_not_in_header_calls env post reply)
  have hquietB : ∀ e ∈ evB, e.is_close = false ∧ e.is_quit = false := by
    intro e he
    refine ⟨(hqB e he).1, ?_⟩
    cases hq : e.is_quit with
    | false => rfl
    | true => exact absurd ((hqB e he).2 hq) (quit_not_in_body_calls post.body)
  rw [heH] at heB
  obtain ⟨T, hT⟩ : ∃ T, T = perform env (perform env ⟨s2, [Event.socket, Event.read_line (some g),
      Event.send "POST\r\n".toList (env.write_ok 0), Event.read_line (some a)]⟩
      (header_calls env post reply)) (body_calls post.body) := ⟨_, rfl⟩
  rw [← hT] at heB ⊢
  have hmid2 : ∀ (l : Option Bytes),
      ∀ e ∈ [Event.read_line (some g), Event.send "POST\r\n".toList (env.write_ok 0),
        Event.read_line (some a)] ++ evH ++ evB
        ++ [Event.send ".\r\n".toList (env.write_ok (writes T.trace).length),
        Event.read_line l], e.is_close = false ∧ e.is_quit = false := by
    intro l e he
    simp only [List.mem_append] at he
    rcases he with ((he | he) | he) | he
    · exact hmid1 e he
    · exact hquietH e he
    · exact hquietB e he
    · simp only [List.mem_cons, List.not_mem_nil, or_false] at he
      rcases he with rfl | rfl
      · exact ⟨rfl, by simp [Event.is_quit]⟩
      · exact ⟨rfl, rfl⟩
  have hsend : ∀ l : Option Bytes,
      (send_nntp_command env T ".\r\n".toList).2.trace ++ [Event.read_line l]
        = Event.socket :: ([Event.read_line (some g),
          Event.send "POST\r\n".toList (env.write_ok 0), Event.read_line (some a)] ++ evH ++ evB
          ++ [Event.send ".\r\n".toList (env.write_ok (writes T.trace).length),
          Event.read_line l]) := by
    intro l
    simp only [send_nntp_command]
    rw [heB]
    simp
  rcases hr : read_nntp_line NNTP_BUFFER_SIZE s2 with ⟨_ | r, s3⟩
  · exact herr _ _ (hsend none) (hmid2 none)
  dsimp only
  by_cases h3 : sscanf_status r (sscanf_status a (sscanf_status g env.status0)) ≠ 240
  · rw [if_pos h3]
    exact herr _ _ (hsend (some r)) (hmid2 (some r))
  · rw [if_neg h3]
    refine ⟨_, env.write_ok (writes ((send_nntp_command env T ".\r\n".toList).2.trace
        ++ [Event.read_line (some r)])).length,
      [Event.read_line (read_nntp_line NNTP_BUFFER_SIZE s3).1], ?_, hmid2 (some r),
      Or.inr ⟨_, rfl⟩⟩
    have hq : ∀ (st : St) (c : Bytes), (send_nntp_command env st c).2.trace
        = st.trace ++ [Event.send c (env.write_ok (writes st.trace).length)] := fun _ _ => rfl
    simp only [close]
    rw [hq ⟨s3, _⟩]
    dsimp only
    rw [hsend (some r)]
    simp

theorem post_to_nntp_trace_unconnected (env : Env) (post : nntp_post_data) (reply : Option Bytes)
    (hs : 0 ≤ env.socket_ret) (h : env.host_ok = false ∨ env.connect_ok = false) :
    (post_to_nntp env post reply).trace = [Event.socket, Event.close] := by
  have hs' : ¬ env.socket_ret < 0 := by omega
  unfold post_to_nntp
  rcases h with h | h
  · simp [hs', h, close]
  · cases hh : env.host_ok <;> simp [hs', h, hh, close]

/-- C9: on every path of `post_to_nntp` on which the socket was opened the trace starts
with the socket, contains exactly one `close` and ends with it; on every path past a
successful `connect`, whether it ends in success or failure, exactly one `QUIT` command
is sent and it comes before the close; and the value returned depends neither on the
outcome of any write (that of `QUIT` included) nor on what the server delivers after the
article-result line, from which the reply to `QUIT` is read. -/
theorem connection_closed_once_after_quit (env : Env) (post : nntp_post_data)
    (reply : Option Bytes) (hs : 0 ≤ env.socket_ret) :
    ((post_to_nntp env post reply).trace.head? = some Event.socket ∧
      (post_to_nntp env post reply).trace.countP Event.is_close = 1 ∧
      (post_to_nntp env post reply).trace.getLast? = some Event.close) ∧
    (env.host_ok = true → env.connect_ok = true →
      (post_to_nntp env post reply).trace.countP Event.is_quit = 1 ∧
      ∃ pre ok tail, (post_to_nntp env post reply).trace
          = pre ++ Event.send "QUIT\r\n".toList ok :: tail ++ [Event.close] ∧
        ∀ e ∈ pre ++ tail, e.is_close = false ∧ e.is_quit = false) ∧
    (∀ w : Nat → Bool,
      (post_to_nntp { env with write_ok := w } post reply).ret = (post_to_nntp env post reply).ret) ∧
    (∀ (w : Nat → Bool) (inp' g a r s1 s2 s3 s1' s2' s3' : Bytes),
      read_nntp_line NNTP_BUFFER_SIZE env.inp = (some g, s1) →
      read_nntp_line NNTP_BUFFER_SIZE s1 = (some a, s2) →
      read_nntp_line NNTP_BUFFER_SIZE s2 = (some r, s3) →
      read_nntp_line NNTP_BUFFER_SIZE inp' = (some g, s1') →
      read_nntp_line NNTP_BUFFER_SIZE s1' = (some a, s2') →
      read_nntp_line NNTP_BUFFER_SIZE s2' = (some r, s3') →
      (post_to_nntp { env with inp := inp', write_ok := w } post reply).ret
        = (post_to_nntp env post reply).ret) := by
  have hshape : env.host_ok = true → env.connect_ok = true →
      ∃ mid ok tail, (post_to_nntp env post reply).trace
        = Event.socket :: mid ++ Event.send "QUIT\r\n".toList ok :: tail ++ [Event.close] ∧
      (∀ e ∈ mid, e.is_close = false ∧ e.is_quit = false) ∧
      (tail = [] ∨ ∃ l, tail = [Event.read_line l]) :=
    fun hh hc => post_to_nntp_trace_shape env post reply hs hh hc
  have htail : ∀ tail : List Event, (tail = [] ∨ ∃ l, tail = [Event.read_line l]) →
      ∀ e ∈ tail, e.is_close = false ∧ e.is_quit = false := by
    rintro tail (rfl | ⟨l, rfl⟩) e he
    · simp at he
    · simp only [List.mem_singleton] at he
      subst he
      exact ⟨rfl, rfl⟩
  have hcount : ∀ (p : Event → Bool) (l : List Event), (∀ e ∈ l, p e = false) →
      l.countP p = 0 := by
    intro p l hl
    rw [List.countP_eq_zero]
    intro e he
    simp [hl e he]
  refine ⟨?_, ?_, ?_, ?_⟩
  · by_cases hcon : env.host_ok = true ∧ env.connect_ok = true
    · obtain ⟨mid, ok, tail, ht, hmid, htl⟩ := hshape hcon.1 hcon.2
      rw [ht]
      have hlast : (Event.socket :: mid ++ Event.send "QUIT\r\n".toList ok :: tail
          ++ [Event.close]).getLast? = some Event.close := by
        rw [List.getLast?_append]
        rfl
      refine ⟨rfl, ?_, hlast⟩
      have c1 := hcount Event.is_close mid (fun e he => (hmid e he).1)
      have c2 := hcount Event.is_close tail (fun e he => (htail tail htl e he).1)
      simp [List.countP_cons, List.countP_append, c1, c2, Event.is_close]
    · have hcon' : env.host_ok = false ∨ env.connect_ok = false := by
        cases h1 : env.host_ok <;> cases h2 : env.connect_ok <;> simp_all
      rw [post_to_nntp_trace_unconnected env post reply hs hcon']
      exact ⟨rfl, rfl, rfl⟩
  · intro hh hc
    obtain ⟨mid, ok, tail, ht, hmid, htl⟩ := hshape hh hc
    rw [ht]
    constructor
    · have c1 := hcount Event.is_quit mid (fun e he => (hmid e he).2)
      have c2 := hcount Event.is_quit tail (fun e he => (htail tail htl e he).2)
      simp [List.countP_cons, List.countP_append, c1, c2, Event.is_quit, Event.is_close]
    · refine ⟨Event.socket :: mid, ok, tail, by simp, ?_⟩
      intro e he
      simp only [List.mem_append, List.mem_cons] at he
      rcases he with (rfl | he) | he
      · exact ⟨rfl, rfl⟩
      · exact hmid e he
      · exact htail tail htl e he
  · intro w
    rw [post_to_nntp_ret, post_to_nntp_ret]
    rfl
  · intro w inp' g a r s1 s2 s3 s1' s2' s3' hg ha hr hg' ha' hr'
    rw [post_to_nntp_ret, post_to_nntp_ret]
    unfold outcome
    simp only [hg, ha, hr, hg', ha', hr']

/-- Witness for C9: the run of scenario 1. -/
theorem connection_closed_once_after_quit_witness :
    (post_to_nntp accepting_server (request "line1\nline2".toList) none).trace.countP
        Event.is_close = 1 ∧
    (post_to_nntp accepting_server (request "line1\nline2".toList) none).trace.getLast?
        = some Event.close :=
  have h := connection_closed_once_after_quit accepting_server (request "line1\nline2".toList)
    none (by decide)
  ⟨h.1.2.1, h.1.2.2⟩

end NntpWeb
